import Mathlib

/-!
Verification of the monorepo setup orchestrator (`main.py`).

The script is a linear pipeline of filesystem effects and external-command
invocations.  We embed it shallowly:

* `Effect` records one observable action (command attempted, file emitted,
  file removed, directory created, tree removed, confirmation prompt,
  stderr print on a hard failure).
* `Step` is one call site of the script (`run_command`, `create_file`,
  `remove_file`, an explicit `mkdir`, or the conditional tsconfig rewrite);
  the step lists below transcribe each method of `MonorepoSetup` in source
  order.  Paths are relative to the project root (`"."` is the root itself);
  `create_file` creates parent directories implicitly, so only the explicit
  `mkdir` calls of the source appear as `mkdir` steps.
* `Env` supplies the non-deterministic inputs: the exit code of the i-th
  attempted external command (0-based), whether the base path and project
  path pre-exist, the reply typed at the confirmation prompt, and whether
  the generator produced a `tsconfig.json` (the source guards the rewrite
  with `tsconfig_path.exists()`).
* `runSteps` executes a step list, accumulating a trace and a count of
  attempted commands; a hard-fail command (`check=True`, and the manually
  checked `create-next-app` invocation) with a non-zero exit code prints
  stderr and terminates the process with exit code 1, exactly as
  `run_command` does via `sys.exit(1)`.

Character-level string predicates (`isalnum`, `lower`) are modelled on the
ASCII fragment, where Lean's `Char.isAlpha/isDigit/toLower` agree with
Python's semantics; theorems about them carry explicit ASCII hypotheses
where faithfulness requires it.
-/

namespace Monorepo

/-- One observable action of the script. -/
inductive Effect : Type where
  | runCmd (cmd : String) (hard : Bool)
  | printStderr
  | emitFile (path : String)
  | removeFile (path : String)
  | makeDir (path : String)
  | makeBaseDir
  | removeTree (path : String)
  | prompt
deriving DecidableEq, Repr

/-- One call site of `MonorepoSetup`, as data.  `cmd` is `run_command`
(`hard` is Python's `check`; the `create-next-app` invocation checks its
return code manually and is likewise hard), `emit` is `create_file`,
`rm` is `remove_file`, `mkdir` is an explicit `Path.mkdir` call, and
`patchTsconfig` is the read–mutate–rewrite of `frontend/tsconfig.json`
guarded by `tsconfig_path.exists()`. -/
inductive Step : Type where
  | cmd (c : String) (hard : Bool)
  | emit (p : String)
  | rm (p : String)
  | mkdir (p : String)
  | patchTsconfig (p : String)
deriving DecidableEq, Repr

/-- External inputs of a run.  The confirmation reply is a character
list (Python strings compared character-wise). -/
structure Env : Type where
  exits : Nat → Nat
  projectExists : Bool
  basePathExists : Bool
  response : List Char
  tsconfigExists : Bool

/-- Accumulated observable state: the trace of effects so far and the
number of external commands attempted so far. -/
structure RunState : Type where
  trace : List Effect
  cmdCount : Nat
deriving DecidableEq, Repr

/-- Result of (a suffix of) a run: normal control flow, or the process
terminated via `sys.exit code`. -/
inductive StepResult : Type where
  | ok (s : RunState)
  | exited (s : RunState) (code : Nat)
deriving DecidableEq, Repr

/-- The trace carried by a result. -/
def StepResult.trace : StepResult → List Effect
  | .ok s => s.trace
  | .exited s _ => s.trace

/-- Execute one step: `run_command` attempts the command (consuming one
oracle exit code); on a non-zero exit of a hard (`check=True`) command it
prints the captured stderr and exits the process with code 1, otherwise
control returns to the caller.  File steps always succeed. -/
def runStep (env : Env) (st : Step) (s : RunState) : StepResult :=
  match st with
  | .cmd c hard =>
      let s' : RunState := ⟨s.trace ++ [Effect.runCmd c hard], s.cmdCount + 1⟩
      if hard && !(env.exits s.cmdCount == 0) then
        .exited ⟨s'.trace ++ [Effect.printStderr], s'.cmdCount⟩ 1
      else
        .ok s'
  | .emit p => .ok ⟨s.trace ++ [Effect.emitFile p], s.cmdCount⟩
  | .rm p => .ok ⟨s.trace ++ [Effect.removeFile p], s.cmdCount⟩
  | .mkdir p => .ok ⟨s.trace ++ [Effect.makeDir p], s.cmdCount⟩
  | .patchTsconfig p =>
      if env.tsconfigExists then
        .ok ⟨s.trace ++ [Effect.emitFile p], s.cmdCount⟩
      else
        .ok s

/-- Execute a step list in order; a `sys.exit` aborts the remainder. -/
def runSteps (env : Env) : List Step → RunState → StepResult
  | [], s => .ok s
  | st :: rest, s =>
      match runStep env st s with
      | .ok s' => runSteps env rest s'
      | .exited s' c => .exited s' c

/-- Steps of `create_project_structure`: project root, `frontend/`, `backend/`. -/
def createProjectStructureSteps : List Step :=
  [.mkdir ".", .mkdir "frontend", .mkdir "backend"]

/-- Steps of `create_gitignore`. -/
def createGitignoreSteps : List Step := [.emit ".gitignore"]

/-- The `git init` call of `setup` (`check=False`: soft-fail). -/
def gitInitSteps : List Step := [.cmd "git init" false]

/-- Steps of `create_vscode_settings`. -/
def createVscodeSettingsSteps : List Step := [.emit ".vscode/settings.json"]

/-- Steps of `setup_backend`, in source order. -/
def setupBackendSteps : List Step :=
  [.cmd "uv init ." true,
   .rm "backend/.gitignore",
   .rm "backend/hello.py",
   .rm "backend/main.py",
   .cmd "uv venv" true,
   .mkdir "backend/src/app",
   .emit "backend/src/app/__init__.py",
   .emit "backend/src/app/main.py",
   .emit "backend/pyproject.toml",
   .emit "backend/README.md",
   .cmd "uv add --editable . --dev" true,
   .cmd "uv add --dev ruff" true,
   .cmd "uv sync --dev" true,
   .cmd "uv add fastapi uvicorn alembic sqlalchemy psycopg psycopg2 pydantic-settings python-dotenv supabase" true,
   .cmd "uv sync --dev" true,
   .mkdir "backend/src/app/core",
   .emit "backend/src/app/core/__init__.py",
   .emit "backend/src/app/core/config.py",
   .emit "backend/.env.example",
   .mkdir "backend/src/app/database/models",
   .emit "backend/src/app/database/__init__.py",
   .emit "backend/src/app/database/models/__init__.py",
   .emit "backend/src/app/database/models/base.py",
   .emit "backend/src/app/database/session.py",
   .emit "backend/src/app/database/README.md",
   .cmd "backend/.venv/bin/alembic init alembic" true,
   .emit "backend/src/app/database/alembic/env.py"]

/-- Steps of `setup_frontend`, in source order; the `create-next-app` invocation is
run through `Popen` but its return code is checked manually with the same
print-stderr-and-`sys.exit(1)` behaviour, so it is a hard command. -/
def setupFrontendSteps : List Step :=
  [.cmd "npx create-next-app@latest . --typescript --tailwind --app --src-dir --import-alias \"@/*\" --no-eslint --turbo" true,
   .rm "frontend/.gitignore",
   .cmd "npm install axios" true,
   .cmd "npm install -D @types/node prettier eslint @typescript-eslint/parser @typescript-eslint/eslint-plugin" true,
   .emit "frontend/.prettierrc",
   .emit "frontend/.eslintrc.json",
   .patchTsconfig "frontend/tsconfig.json"]

/-- Steps of `create_readme`. -/
def createReadmeSteps : List Step := [.emit "README.md"]

/-- The body of `setup` after the directory-existence check, i.e. the
method calls `create_project_structure`, `create_gitignore`, `git init`,
`create_vscode_settings`, `setup_backend`, `setup_frontend`,
`create_readme`, concatenated in source order. -/
def pipelineSteps : List Step :=
  createProjectStructureSteps ++ createGitignoreSteps ++ gitInitSteps ++
    createVscodeSettingsSteps ++ setupBackendSteps ++ setupFrontendSteps ++
    createReadmeSteps

/-- Test `response.lower() == "y"` — acceptance test of the overwrite prompt
(`Char.toLower` matches Python `str.lower` on ASCII replies). -/
def acceptResponse (r : List Char) : Bool := r.map Char.toLower == ['y']

/-- Method `MonorepoSetup.setup`: ensure the base path exists, prompt if the
project path pre-exists (declining exits 0 with nothing done; accepting
removes the existing tree), then run the pipeline.  Normal completion is
`.ok` (the process then finishes with exit status 0). -/
def setup (env : Env) : StepResult :=
  let s0 : RunState := ⟨[], 0⟩
  let s1 : RunState :=
    if env.basePathExists then s0 else ⟨s0.trace ++ [Effect.makeBaseDir], s0.cmdCount⟩
  if env.projectExists then
    let s2 : RunState := ⟨s1.trace ++ [Effect.prompt], s1.cmdCount⟩
    if acceptResponse env.response then
      runSteps env pipelineSteps ⟨s2.trace ++ [Effect.removeTree "."], s2.cmdCount⟩
    else
      .exited s2 0
  else
    runSteps env pipelineSteps s1

/-- Python `str.isalnum` restricted to the ASCII fragment, where it is
exactly "ASCII letter or digit" — and non-empty. -/
def pyAlnumChar (c : Char) : Bool := c.isAlpha || c.isDigit

/-- Python `s.isalnum()` on a string given as a character list. -/
def pyIsalnum (s : List Char) : Bool := !s.isEmpty && s.all pyAlnumChar

/-- Rule `args.project_name.replace("-", "").replace("_", "").isalnum()` —
the CLI validation rule of `main`; `str.replace(c, "")` with a one-character
pattern deletes every occurrence of that character. -/
def validName (s : List Char) : Bool :=
  pyIsalnum ((s.filter (fun c => c != '-')).filter (fun c => c != '_'))

/-- The character set the spec allows in a project name: letters, digits,
hyphen, underscore. -/
def allowedChar (c : Char) : Bool := pyAlnumChar c || c == '-' || c == '_'

/-- Entry point `main`: validate the project name; on failure print an error and
`sys.exit(1)` before any effect, otherwise construct `MonorepoSetup` and
run `setup`. -/
def mainRun (name : List Char) (env : Env) : StepResult :=
  if validName name then setup env else .exited ⟨[], 0⟩ 1

/-- Fallback of `MonorepoSetup.__init__` for the base path: a truthy explicit
argument wins (Python treats `None` and `""` as falsy), else a truthy
`MONOREPO_BASE_PATH` value, else `Path.home() / "Projects"`. -/
def resolveBasePath (explicit envVal : Option String) (home : String) : String :=
  if explicit.getD "" ≠ "" then explicit.getD ""
  else if envVal.getD "" ≠ "" then envVal.getD ""
  else home ++ "/Projects"

/-- Assignment `self.project_path = self.base_path / project_name`. -/
def projectPath (explicit envVal : Option String) (home name : String) : String :=
  resolveBasePath explicit envVal home ++ "/" ++ name

/-- The commands (with their failure policy) contained in a step list, in
order: the run's command sequence. -/
def cmdsOf (steps : List Step) : List (String × Bool) :=
  steps.filterMap fun st =>
    match st with
    | .cmd c h => some (c, h)
    | _ => none

/-- The commands attempted in a trace, in order. -/
def cmdEffects (t : List Effect) : List (String × Bool) :=
  t.filterMap fun e =>
    match e with
    | .runCmd c h => some (c, h)
    | _ => none

/-- Effects that touch the filesystem or invoke an external command;
only the confirmation prompt and diagnostic printing are excluded. -/
def isMutation (e : Effect) : Bool :=
  match e with
  | .prompt => false
  | .printStderr => false
  | _ => true

@[simp] theorem cmdEffects_nil : cmdEffects [] = [] := rfl

@[simp] theorem cmdEffects_append (a b : List Effect) :
    cmdEffects (a ++ b) = cmdEffects a ++ cmdEffects b :=
  List.filterMap_append a b _

theorem getLast?_concat_eq (l : List α) (a : α) : (l ++ [a]).getLast? = some a := by
  rw [List.getLast?_append_of_ne_nil l (by simp)]
  rfl

/-- Executing steps terminates the process only with exit code 1 (a hard-fail
command error); the cancellation exit 0 happens before the pipeline. -/
theorem runSteps_exit_code (env : Env) :
    ∀ (steps : List Step) (s s' : RunState) (c : Nat),
      runSteps env steps s = .exited s' c → c = 1 := by
  intro steps
  induction steps with
  | nil => intro s s' c h; simp [runSteps] at h
  | cons st rest ih =>
    intro s s' c h
    rw [runSteps] at h
    cases hst : runStep env st s with
    | ok s'' =>
      rw [hst] at h
      exact ih s'' s' c h
    | exited s'' c'' =>
      rw [hst] at h
      cases h
      cases st with
      | cmd cc hard =>
        rw [runStep] at hst
        split at hst
        · cases hst; rfl
        · cases hst
      | emit p => cases hst
      | rm p => cases hst
      | mkdir p => cases hst
      | patchTsconfig p =>
        rw [runStep] at hst
        split at hst <;> cases hst

/-- One step only appends to the trace. -/
theorem runStep_trace_mono (env : Env) (st : Step) (s : RunState) :
    ∃ u, (runStep env st s).trace = s.trace ++ u := by
  cases st with
  | cmd cc hard =>
    rw [runStep]
    split
    · exact ⟨[Effect.runCmd cc hard, Effect.printStderr],
        by simp [StepResult.trace]⟩
    · exact ⟨[Effect.runCmd cc hard], rfl⟩
  | emit p => exact ⟨[Effect.emitFile p], rfl⟩
  | rm p => exact ⟨[Effect.removeFile p], rfl⟩
  | mkdir p => exact ⟨[Effect.makeDir p], rfl⟩
  | patchTsconfig p =>
    rw [runStep]
    split
    · exact ⟨[Effect.emitFile p], rfl⟩
    · exact ⟨[], by simp [StepResult.trace]⟩

/-- Executing steps only appends to the trace. -/
theorem runSteps_trace_mono (env : Env) :
    ∀ (steps : List Step) (s : RunState),
      ∃ t, (runSteps env steps s).trace = s.trace ++ t := by
  intro steps
  induction steps with
  | nil => intro s; exact ⟨[], by simp [runSteps, StepResult.trace]⟩
  | cons st rest ih =>
    intro s
    obtain ⟨u, hu⟩ := runStep_trace_mono env st s
    cases hst : runStep env st s with
    | ok s'' =>
      rw [runSteps, hst]
      obtain ⟨t, ht⟩ := ih s''
      rw [hst] at hu
      simp only [StepResult.trace] at hu
      exact ⟨u ++ t, by rw [ht, hu, List.append_assoc]⟩
    | exited s'' c =>
      rw [runSteps, hst]
      rw [hst] at hu
      exact ⟨u, hu⟩

@[simp] theorem cmdEffects_cons_run (c : String) (h : Bool) (t : List Effect) :
    cmdEffects (Effect.runCmd c h :: t) = (c, h) :: cmdEffects t := rfl

@[simp] theorem cmdEffects_cons_printStderr (t : List Effect) :
    cmdEffects (Effect.printStderr :: t) = cmdEffects t := rfl

@[simp] theorem cmdEffects_cons_emit (p : String) (t : List Effect) :
    cmdEffects (Effect.emitFile p :: t) = cmdEffects t := rfl

@[simp] theorem cmdEffects_cons_removeFile (p : String) (t : List Effect) :
    cmdEffects (Effect.removeFile p :: t) = cmdEffects t := rfl

@[simp] theorem cmdEffects_cons_makeDir (p : String) (t : List Effect) :
    cmdEffects (Effect.makeDir p :: t) = cmdEffects t := rfl

@[simp] theorem cmdEffects_cons_makeBaseDir (t : List Effect) :
    cmdEffects (Effect.makeBaseDir :: t) = cmdEffects t := rfl

@[simp] theorem cmdEffects_cons_removeTree (p : String) (t : List Effect) :
    cmdEffects (Effect.removeTree p :: t) = cmdEffects t := rfl

@[simp] theorem cmdEffects_cons_prompt (t : List Effect) :
    cmdEffects (Effect.prompt :: t) = cmdEffects t := rfl

@[simp] theorem cmdsOf_nil : cmdsOf [] = [] := rfl

@[simp] theorem cmdsOf_cons_cmd (c : String) (h : Bool) (rest : List Step) :
    cmdsOf (Step.cmd c h :: rest) = (c, h) :: cmdsOf rest := rfl

@[simp] theorem cmdsOf_cons_emit (p : String) (rest : List Step) :
    cmdsOf (Step.emit p :: rest) = cmdsOf rest := rfl

@[simp] theorem cmdsOf_cons_rm (p : String) (rest : List Step) :
    cmdsOf (Step.rm p :: rest) = cmdsOf rest := rfl

@[simp] theorem cmdsOf_cons_mkdir (p : String) (rest : List Step) :
    cmdsOf (Step.mkdir p :: rest) = cmdsOf rest := rfl

@[simp] theorem cmdsOf_cons_patch (p : String) (rest : List Step) :
    cmdsOf (Step.patchTsconfig p :: rest) = cmdsOf rest := rfl

/-- If every command before position `j` (0-based, relative to the commands
still to be attempted) succeeds, the command at position `j` is hard-fail
and exits non-zero, then the run terminates with exit code 1 having
attempted exactly the first `j + 1` remaining commands, and the last thing
it does is print the captured stderr. -/
theorem runSteps_fail_at (env : Env) :
    ∀ (steps : List Step) (s : RunState) (j : Nat) (c : String),
      (∀ i, i < j → env.exits (s.cmdCount + i) = 0) →
      env.exits (s.cmdCount + j) ≠ 0 →
      (cmdsOf steps)[j]? = some (c, true) →
      ∃ s', runSteps env steps s = .exited s' 1 ∧
        s'.cmdCount = s.cmdCount + j + 1 ∧
        cmdEffects s'.trace = cmdEffects s.trace ++ (cmdsOf steps).take (j + 1) ∧
        s'.trace.getLast? = some Effect.printStderr := by
  intro steps
  induction steps with
  | nil => intro s j c h1 h2 h3; simp at h3
  | cons st rest ih =>
    intro s j c h1 h2 h3
    cases st with
    | cmd c' hard =>
      cases j with
      | zero =>
        simp at h3
        obtain ⟨hc, hh⟩ := h3
        subst hh
        have h2' : env.exits s.cmdCount ≠ 0 := by simpa using h2
        refine ⟨⟨(s.trace ++ [Effect.runCmd c' true]) ++ [Effect.printStderr],
          s.cmdCount + 1⟩, ?_, by simp, by simp, getLast?_concat_eq _ _⟩
        rw [runSteps, runStep, if_pos (by simp [h2'])]
      | succ j' =>
        have h0 : env.exits s.cmdCount = 0 := by simpa using h1 0 (Nat.succ_pos j')
        have hred : runSteps env (Step.cmd c' hard :: rest) s =
            runSteps env rest ⟨s.trace ++ [Effect.runCmd c' hard], s.cmdCount + 1⟩ := by
          rw [runSteps, runStep, if_neg (by simp [h0])]
        obtain ⟨s', hrun, hcount, heff, hlast⟩ :=
          ih ⟨s.trace ++ [Effect.runCmd c' hard], s.cmdCount + 1⟩ j' c
            (fun i hi => by
              have := h1 (i + 1) (by omega)
              simpa [show s.cmdCount + 1 + i = s.cmdCount + (i + 1) by omega] using this)
            (by
              simpa [show s.cmdCount + 1 + j' = s.cmdCount + (j' + 1) by omega] using h2)
            (by simpa using h3)
        refine ⟨s', by rw [hred]; exact hrun, ?_, ?_, hlast⟩
        · dsimp only at hcount
          omega
        · rw [heff]
          simp
    | emit p =>
      obtain ⟨s', hrun, hcount, heff, hlast⟩ :=
        ih ⟨s.trace ++ [Effect.emitFile p], s.cmdCount⟩ j c h1 h2 (by simpa using h3)
      refine ⟨s', ?_, hcount, ?_, hlast⟩
      · rw [runSteps]; exact hrun
      · rw [heff]; simp
    | rm p =>
      obtain ⟨s', hrun, hcount, heff, hlast⟩ :=
        ih ⟨s.trace ++ [Effect.removeFile p], s.cmdCount⟩ j c h1 h2 (by simpa using h3)
      refine ⟨s', ?_, hcount, ?_, hlast⟩
      · rw [runSteps]; exact hrun
      · rw [heff]; simp
    | mkdir p =>
      obtain ⟨s', hrun, hcount, heff, hlast⟩ :=
        ih ⟨s.trace ++ [Effect.makeDir p], s.cmdCount⟩ j c h1 h2 (by simpa using h3)
      refine ⟨s', ?_, hcount, ?_, hlast⟩
      · rw [runSteps]; exact hrun
      · rw [heff]; simp
    | patchTsconfig p =>
      by_cases hts : env.tsconfigExists
      · obtain ⟨s', hrun, hcount, heff, hlast⟩ :=
          ih ⟨s.trace ++ [Effect.emitFile p], s.cmdCount⟩ j c h1 h2 (by simpa using h3)
        refine ⟨s', ?_, hcount, ?_, hlast⟩
        · rw [runSteps, runStep, if_pos hts]; exact hrun
        · rw [heff]; simp
      · obtain ⟨s', hrun, hcount, heff, hlast⟩ :=
          ih s j c h1 h2 (by simpa using h3)
        refine ⟨s', ?_, hcount, ?_, hlast⟩
        · rw [runSteps, runStep, if_neg hts]; exact hrun
        · rw [heff]; simp

/-- The effects one step contributes when it does not terminate the run
(`ts` is whether `frontend/tsconfig.json` exists). -/
def stepEffects (ts : Bool) (st : Step) : List Effect :=
  match st with
  | .cmd c hard => [.runCmd c hard]
  | .emit p => [.emitFile p]
  | .rm p => [.removeFile p]
  | .mkdir p => [.makeDir p]
  | .patchTsconfig p => if ts then [.emitFile p] else []

/-- The trace of a fully successful execution of a step list: one effect
block per step, in step order. -/
def traceOfSteps (ts : Bool) (steps : List Step) : List Effect :=
  (steps.map (stepEffects ts)).flatten

/-- Abstract filesystem semantics of a trace.  The filesystem is the list
of project-relative paths that exist; `"."` is the project root. -/
def underPath (root p : String) : Bool :=
  root == "." || p == root || (root ++ "/").isPrefixOf p

/-- Add a path to the filesystem if not already present
(`mkdir(exist_ok=True)` / file creation). -/
def addPath (fs : List String) (p : String) : List String :=
  if p ∈ fs then fs else fs ++ [p]

/-- Effect of one trace entry on the abstract filesystem. -/
def applyEffect (fs : List String) (e : Effect) : List String :=
  match e with
  | .emitFile p => addPath fs p
  | .removeFile p => fs.filter (fun q => q != p)
  | .makeDir p => addPath fs p
  | .removeTree p => fs.filter (fun q => !underPath p q)
  | _ => fs

/-- Run a trace against an abstract filesystem. -/
def applyTrace (t : List Effect) (fs : List String) : List String :=
  t.foldl applyEffect fs

/-- C1: on a fresh run, if every command before the `j`-th (0-based)
succeeds and the `j`-th command of the run's command sequence is hard-fail
and exits non-zero, the process prints the captured stderr and terminates
with exit code 1, having attempted exactly `j + 1` commands (the failing
one included); the commands after position `j` are never invoked. -/
theorem hardFail_terminates_after_k_commands (env : Env) (j : Nat) (c : String)
    (hpe : env.projectExists = false) (hbe : env.basePathExists = true)
    (hcmd : (cmdsOf pipelineSteps)[j]? = some (c, true))
    (hpre : ∀ i, i < j → env.exits i = 0) (hfail : env.exits j ≠ 0) :
    ∃ s', setup env = .exited s' 1 ∧
      s'.cmdCount = j + 1 ∧
      cmdEffects s'.trace = (cmdsOf pipelineSteps).take (j + 1) ∧
      s'.trace.getLast? = some Effect.printStderr := by
  obtain ⟨s', hrun, hcount, heff, hlast⟩ :=
    runSteps_fail_at env pipelineSteps ⟨[], 0⟩ j c
      (by intro i hi; simpa using hpre i hi) (by simpa using hfail) hcmd
  refine ⟨s', ?_, by dsimp only at hcount; omega, by simpa using heff, hlast⟩
  rw [setup]
  simp only [hpe, hbe, if_true, if_false, Bool.false_eq_true]
  exact hrun

/-- Witness for C1: the second command (`uv init .`, hard-fail, command
index 1 after the soft `git init`) is injected to fail; the run exits 1
after exactly two attempted commands. -/
theorem hardFail_terminates_after_k_commands_witness :
    ∃ s', setup ⟨fun i => if i = 1 then 2 else 0, false, true, [], true⟩ =
        .exited s' 1 ∧
      s'.cmdCount = 1 + 1 ∧
      cmdEffects s'.trace = (cmdsOf pipelineSteps).take (1 + 1) ∧
      s'.trace.getLast? = some Effect.printStderr :=
  hardFail_terminates_after_k_commands
    ⟨fun i => if i = 1 then 2 else 0, false, true, [], true⟩ 1 "uv init ."
    rfl rfl rfl (by decide) (by decide)

/-- C2: if the project path already exists (hence the base path exists)
and the confirmation is declined, the process exits with status 0 and the
trace contains no filesystem mutation and no command: the pre-existing
directory is untouched. -/
theorem declined_confirmation_exits_zero_unchanged (env : Env)
    (hpe : env.projectExists = true) (hbe : env.basePathExists = true)
    (hresp : acceptResponse env.response = false) :
    setup env = .exited ⟨[Effect.prompt], 0⟩ 0 ∧
      (setup env).trace.filter isMutation = [] := by
  have h : setup env = .exited ⟨[Effect.prompt], 0⟩ 0 := by
    rw [setup]
    simp [hpe, hbe, hresp]
  exact ⟨h, by rw [h]; rfl⟩

/-- Witness for C2 at the reply `n`. -/
theorem declined_confirmation_exits_zero_unchanged_witness :
    setup ⟨fun _ => 0, true, true, ['n'], true⟩ = .exited ⟨[Effect.prompt], 0⟩ 0 ∧
      (setup ⟨fun _ => 0, true, true, ['n'], true⟩).trace.filter isMutation = [] :=
  declined_confirmation_exits_zero_unchanged
    ⟨fun _ => 0, true, true, ['n'], true⟩ rfl rfl rfl

/-- C3: if the project path already exists and the confirmation is
accepted, the first five effects are: prompt, recursive removal of the
existing tree, then creation of the project root and its `frontend/` and
`backend/` subdirectories — so the old tree is deleted before any new
content is created, and whatever the prior contents were, after tree
preparation the project root exists and holds exactly the two fresh
subdirectories. -/
theorem accepted_confirmation_removes_then_creates (env : Env)
    (hpe : env.projectExists = true) (hbe : env.basePathExists = true)
    (hresp : acceptResponse env.response = true) :
    (setup env).trace.take 5 =
      [Effect.prompt, Effect.removeTree ".", Effect.makeDir ".",
       Effect.makeDir "frontend", Effect.makeDir "backend"] ∧
    ∀ fs0 : List String,
      applyTrace ((setup env).trace.take 5) fs0 = [".", "frontend", "backend"] := by
  have h0 : setup env =
      runSteps env (pipelineSteps.drop 3)
        ⟨[Effect.prompt, Effect.removeTree ".", Effect.makeDir ".",
          Effect.makeDir "frontend", Effect.makeDir "backend"], 0⟩ := by
    rw [setup]
    simp only [hpe, hbe, hresp, if_true]
    rfl
  obtain ⟨t, ht⟩ := runSteps_trace_mono env (pipelineSteps.drop 3)
    ⟨[Effect.prompt, Effect.removeTree ".", Effect.makeDir ".",
      Effect.makeDir "frontend", Effect.makeDir "backend"], 0⟩
  have htake : (setup env).trace.take 5 =
      [Effect.prompt, Effect.removeTree ".", Effect.makeDir ".",
       Effect.makeDir "frontend", Effect.makeDir "backend"] := by
    rw [h0, ht]
    rfl
  refine ⟨htake, fun fs0 => ?_⟩
  rw [htake]
  show applyTrace _ fs0 = _
  simp only [applyTrace, List.foldl_cons, List.foldl_nil, applyEffect]
  have hfilter : fs0.filter (fun q => !underPath "." q) = [] := by
    rw [List.filter_eq_nil_iff]
    intro a _
    simp [underPath]
  rw [hfilter]
  rfl

/-- Witness for C3 at the reply `Y` and a non-empty prior tree. -/
theorem accepted_confirmation_removes_then_creates_witness :
    (setup ⟨fun _ => 0, true, true, ['Y'], true⟩).trace.take 5 =
      [Effect.prompt, Effect.removeTree ".", Effect.makeDir ".",
       Effect.makeDir "frontend", Effect.makeDir "backend"] ∧
    applyTrace ((setup ⟨fun _ => 0, true, true, ['Y'], true⟩).trace.take 5)
      ["old.txt", "frontend/stale.ts"] = [".", "frontend", "backend"] := by
  obtain ⟨h1, h2⟩ :=
    accepted_confirmation_removes_then_creates
      ⟨fun _ => 0, true, true, ['Y'], true⟩ rfl rfl rfl
  exact ⟨h1, h2 ["old.txt", "frontend/stale.ts"]⟩

/-- A step reads the environment only through the exit-code oracle at the
current command index and through the tsconfig-existence flag. -/
theorem runStep_congr (env env' : Env)
    (hts : env.tsconfigExists = env'.tsconfigExists) (st : Step) (s : RunState)
    (hq : env.exits s.cmdCount = env'.exits s.cmdCount) :
    runStep env st s = runStep env' st s := by
  cases st <;> simp only [runStep, hq, hts]

/-- A step that does not terminate the run never decreases the command
counter. -/
theorem runStep_ok_cmdCount (env : Env) (st : Step) (s s' : RunState)
    (h : runStep env st s = .ok s') : s.cmdCount ≤ s'.cmdCount := by
  cases st with
  | cmd c hard =>
    rw [runStep] at h
    split at h
    · cases h
    · cases h; dsimp only; omega
  | emit p => cases h; exact le_rfl
  | rm p => cases h; exact le_rfl
  | mkdir p => cases h; exact le_rfl
  | patchTsconfig p =>
    rw [runStep] at h
    split at h <;> cases h
    · exact le_rfl
    · exact le_rfl

/-- Executing steps reads the environment only through the exit-code oracle, at
the indices of the commands still to be attempted, and through the
tsconfig-existence flag; in particular it never reads the prompt reply. -/
theorem runSteps_congr (env env' : Env)
    (hts : env.tsconfigExists = env'.tsconfigExists) :
    ∀ (steps : List Step) (s : RunState),
      (∀ i, s.cmdCount ≤ i → env.exits i = env'.exits i) →
      runSteps env steps s = runSteps env' steps s := by
  intro steps
  induction steps with
  | nil => intro s h; rfl
  | cons st rest ih =>
    intro s h
    have hstep := runStep_congr env env' hts st s (h s.cmdCount le_rfl)
    rw [runSteps, runSteps, hstep]
    cases hr : runStep env' st s with
    | ok s' =>
      exact ih s'
        (fun i hi => h i (le_trans (runStep_ok_cmdCount env' st s s' hr) hi))
    | exited s'' c'' => rfl

theorem runSteps_cons_mkdir (env : Env) (p : String) (rest : List Step)
    (s : RunState) :
    runSteps env (Step.mkdir p :: rest) s =
      runSteps env rest ⟨s.trace ++ [Effect.makeDir p], s.cmdCount⟩ := rfl

theorem runSteps_cons_emit (env : Env) (p : String) (rest : List Step)
    (s : RunState) :
    runSteps env (Step.emit p :: rest) s =
      runSteps env rest ⟨s.trace ++ [Effect.emitFile p], s.cmdCount⟩ := rfl

theorem runSteps_cons_softCmd (env : Env) (c : String) (rest : List Step)
    (s : RunState) :
    runSteps env (Step.cmd c false :: rest) s =
      runSteps env rest ⟨s.trace ++ [Effect.runCmd c false], s.cmdCount + 1⟩ := rfl

/-- The steps that follow the `git init` call. -/
def pipelineAfterGitInit : List Step :=
  createVscodeSettingsSteps ++ setupBackendSteps ++ setupFrontendSteps ++
    createReadmeSteps

theorem pipelineSteps_eq :
    pipelineSteps = Step.mkdir "." :: Step.mkdir "frontend" ::
      Step.mkdir "backend" :: Step.emit ".gitignore" ::
      Step.cmd "git init" false :: pipelineAfterGitInit := rfl

/-- C7: a non-zero exit of `git init` (the only soft-fail command, the
first command attempted) never terminates the run: with every later
command succeeding, the run completes normally with the full success
trace, and in particular the editor configuration, the backend
sub-pipeline, the frontend sub-pipeline and the root readme all still
happen. -/
theorem softFail_gitInit_never_blocks (e : Nat) (env : Env)
    (hex : env.exits = fun i => if i = 0 then e else 0)
    (hpe : env.projectExists = false) (hbe : env.basePathExists = true)
    (hts : env.tsconfigExists = true) :
    setup env = .ok ⟨traceOfSteps true pipelineSteps, 12⟩ ∧
      Effect.emitFile ".vscode/settings.json" ∈ (setup env).trace ∧
      Effect.runCmd "uv init ." true ∈ (setup env).trace ∧
      Effect.runCmd "npm install axios" true ∈ (setup env).trace ∧
      Effect.emitFile "README.md" ∈ (setup env).trace := by
  have hsetup : setup env = runSteps env pipelineSteps ⟨[], 0⟩ := by
    rw [setup]
    simp only [hpe, hbe, if_true, Bool.false_eq_true, if_false]
  have h : setup env = .ok ⟨traceOfSteps true pipelineSteps, 12⟩ := by
    rw [hsetup, pipelineSteps_eq, runSteps_cons_mkdir, runSteps_cons_mkdir,
      runSteps_cons_mkdir, runSteps_cons_emit, runSteps_cons_softCmd]
    rw [runSteps_congr env ⟨fun _ => 0, false, true, [], true⟩ (by rw [hts])
      pipelineAfterGitInit _
      (fun i hi => by
        dsimp only at hi
        rw [hex]
        simp [show i ≠ 0 by omega])]
    rfl
  refine ⟨h, ?_, ?_, ?_, ?_⟩ <;> rw [h] <;> decide

/-- Witness for C7: `git init` exits 7, everything else succeeds. -/
theorem softFail_gitInit_never_blocks_witness :
    setup ⟨fun i => if i = 0 then 7 else 0, false, true, [], true⟩ =
        .ok ⟨traceOfSteps true pipelineSteps, 12⟩ ∧
      Effect.emitFile ".vscode/settings.json" ∈
        (setup ⟨fun i => if i = 0 then 7 else 0, false, true, [], true⟩).trace ∧
      Effect.runCmd "uv init ." true ∈
        (setup ⟨fun i => if i = 0 then 7 else 0, false, true, [], true⟩).trace ∧
      Effect.runCmd "npm install axios" true ∈
        (setup ⟨fun i => if i = 0 then 7 else 0, false, true, [], true⟩).trace ∧
      Effect.emitFile "README.md" ∈
        (setup ⟨fun i => if i = 0 then 7 else 0, false, true, [], true⟩).trace :=
  softFail_gitInit_never_blocks 7
    ⟨fun i => if i = 0 then 7 else 0, false, true, [], true⟩ rfl rfl rfl rfl

/-- C8: (a) a fully successful fresh run executes exactly the fixed
pipeline — project structure, root ignore-file, version-control init,
editor configuration, backend sub-pipeline, frontend sub-pipeline, root
readme — once each in that order (its trace is the concatenation of the
per-method success traces, one effect block per step, so no step is
revisited or retried); (b) a premature termination with exit status 0
(cancellation) happens only from the tree-preparation point: the project
path pre-existed, the confirmation was declined, and the prompt was the
last action. -/
theorem pipeline_fixed_order_single_cancel :
    (∀ env : Env, env.exits = (fun _ => 0) → env.projectExists = false →
      env.basePathExists = true → env.tsconfigExists = true →
      setup env = .ok ⟨traceOfSteps true createProjectStructureSteps ++
        traceOfSteps true createGitignoreSteps ++
        traceOfSteps true gitInitSteps ++
        traceOfSteps true createVscodeSettingsSteps ++
        traceOfSteps true setupBackendSteps ++
        traceOfSteps true setupFrontendSteps ++
        traceOfSteps true createReadmeSteps, 12⟩) ∧
    (∀ (env : Env) (s : RunState) (c : Nat),
      setup env = .exited s c → c = 0 →
      env.projectExists = true ∧ acceptResponse env.response = false ∧
      s.trace.getLast? = some Effect.prompt) := by
  constructor
  · intro env hex hpe hbe hts
    have hsetup : setup env = runSteps env pipelineSteps ⟨[], 0⟩ := by
      rw [setup]
      simp only [hpe, hbe, if_true, Bool.false_eq_true, if_false]
    rw [hsetup,
      runSteps_congr env ⟨fun _ => 0, false, true, [], true⟩ (by rw [hts])
        pipelineSteps ⟨[], 0⟩ (fun i _ => by rw [hex])]
    rfl
  · intro env s c hrun hc
    subst hc
    by_cases hpe : env.projectExists = true
    · by_cases hacc : acceptResponse env.response = true
      · simp only [setup, hpe, hacc, if_true] at hrun
        have h1 := runSteps_exit_code env pipelineSteps _ s 0 hrun
        exact absurd h1 (by decide)
      · simp only [Bool.not_eq_true] at hacc
        by_cases hbe : env.basePathExists = true
        · simp only [setup, hpe, hacc, hbe, if_true, Bool.false_eq_true,
            if_false, List.nil_append] at hrun
          obtain ⟨rfl, -⟩ := (StepResult.exited.injEq _ _ _ _).mp hrun.symm
          exact ⟨hpe, hacc, rfl⟩
        · simp only [Bool.not_eq_true] at hbe
          simp only [setup, hpe, hacc, hbe, Bool.false_eq_true, if_false,
            if_true, List.nil_append] at hrun
          obtain ⟨rfl, -⟩ := (StepResult.exited.injEq _ _ _ _).mp hrun.symm
          exact ⟨hpe, hacc, rfl⟩
    · simp only [Bool.not_eq_true] at hpe
      by_cases hbe : env.basePathExists = true
      · simp only [setup, hpe, hbe, if_true, Bool.false_eq_true, if_false] at hrun
        have h1 := runSteps_exit_code env pipelineSteps _ s 0 hrun
        exact absurd h1 (by decide)
      · simp only [Bool.not_eq_true] at hbe
        simp only [setup, hpe, hbe, Bool.false_eq_true, if_false] at hrun
        have h1 := runSteps_exit_code env pipelineSteps _ s 0 hrun
        exact absurd h1 (by decide)

/-- Witness for C8 part (a): concrete all-success fresh run. -/
theorem pipeline_fixed_order_single_cancel_witness :
    setup ⟨fun _ => 0, false, true, [], true⟩ =
      .ok ⟨traceOfSteps true createProjectStructureSteps ++
        traceOfSteps true createGitignoreSteps ++
        traceOfSteps true gitInitSteps ++
        traceOfSteps true createVscodeSettingsSteps ++
        traceOfSteps true setupBackendSteps ++
        traceOfSteps true setupFrontendSteps ++
        traceOfSteps true createReadmeSteps, 12⟩ :=
  pipeline_fixed_order_single_cancel.1
    ⟨fun _ => 0, false, true, [], true⟩ rfl rfl rfl rfl

/-- C10: the overwrite confirmation is accepted exactly when the reply,
lowercased, is the single character `y`; with a pre-existing project path
the run terminates prematurely with exit status 0 (cancellation) precisely
for every other reply — in particular `yes` and the empty reply decline. -/
theorem confirmation_accepts_only_lower_y (env : Env)
    (hpe : env.projectExists = true) (hbe : env.basePathExists = true) :
    (acceptResponse env.response = true ↔
      env.response.map Char.toLower = ['y']) ∧
    ((∃ s, setup env = .exited s 0) ↔
      ¬ env.response.map Char.toLower = ['y']) := by
  constructor
  · simp [acceptResponse]
  · constructor
    · rintro ⟨s, hs⟩ hy
      have hacc : acceptResponse env.response = true := by
        simp [acceptResponse, hy]
      rw [setup] at hs
      simp only [hpe, hbe, if_true, hacc] at hs
      exact absurd (runSteps_exit_code env pipelineSteps _ s 0 hs) (by decide)
    · intro hy
      have hacc : acceptResponse env.response = false := by
        simp only [acceptResponse, beq_eq_false_iff_ne, ne_eq]
        exact hy
      exact ⟨⟨[Effect.prompt], 0⟩, by rw [setup]; simp [hpe, hbe, hacc]⟩

/-- Witness for C10 at the reply `yes`: not accepted, run cancelled. -/
theorem confirmation_accepts_only_lower_y_witness :
    (acceptResponse ['y', 'e', 's'] = true ↔
      (['y', 'e', 's'].map Char.toLower) = ['y']) ∧
    ((∃ s, setup ⟨fun _ => 0, true, true, ['y', 'e', 's'], true⟩ =
        .exited s 0) ↔ ¬ (['y', 'e', 's'].map Char.toLower) = ['y']) :=
  confirmation_accepts_only_lower_y
    ⟨fun _ => 0, true, true, ['y', 'e', 's'], true⟩ rfl rfl

/-- C4 as stated is false: the name `-` is non-empty and consists only of
allowed characters, yet the validation rule rejects it (after deleting
hyphens and underscores nothing remains, and Python's `"".isalnum()` is
false), so the process exits 1 at the validation step. -/
theorem allowed_name_rejected_counterexample :
    (['-'] : List Char) ≠ [] ∧ (['-'].all allowedChar) = true ∧
    validName ['-'] = false ∧
    mainRun ['-'] ⟨fun _ => 0, true, true, [], true⟩ = .exited ⟨[], 0⟩ 1 := by
  refine ⟨by decide, by decide, by decide, rfl⟩

/-- C4 (amended): every project name consisting only of letters, digits,
hyphens and underscores and containing at least one letter or digit is
accepted by the validation rule, and the run proceeds to `setup`. -/
theorem allowed_name_with_alnum_accepted (s : List Char) (env : Env)
    (hall : s.all allowedChar = true)
    (hsome : ∃ c ∈ s, pyAlnumChar c = true) :
    validName s = true ∧ mainRun s env = setup env := by
  obtain ⟨c, hc, hcal⟩ := hsome
  have hcd : c ≠ '-' := by rintro rfl; exact absurd hcal (by decide)
  have hcu : c ≠ '_' := by rintro rfl; exact absurd hcal (by decide)
  have hvalid : validName s = true := by
    rw [validName, pyIsalnum, Bool.and_eq_true]
    constructor
    · have hmem : c ∈ (s.filter (fun c => c != '-')).filter (fun c => c != '_') := by
        rw [List.mem_filter]
        exact ⟨List.mem_filter.mpr ⟨hc, by simp [hcd]⟩, by simp [hcu]⟩
      simp [List.isEmpty_iff, List.filter_eq_nil_iff]
      exact ⟨c, hc, hcu, hcd⟩
    · rw [List.all_eq_true]
      intro a ha
      rw [List.mem_filter] at ha
      obtain ⟨ha1, ha2⟩ := ha
      rw [List.mem_filter] at ha1
      obtain ⟨ha0, ha3⟩ := ha1
      have hal := List.all_eq_true.mp hall a ha0
      rw [allowedChar, Bool.or_eq_true, Bool.or_eq_true] at hal
      rcases hal with (h | h) | h
      · exact h
      · rw [beq_iff_eq] at h; subst h; simp at ha3
      · rw [beq_iff_eq] at h; subst h; simp at ha2
  refine ⟨hvalid, by simp [mainRun, hvalid]⟩

/-- Witness for the amended C4 at the name `a-1`. -/
theorem allowed_name_with_alnum_accepted_witness :
    validName ['a', '-', '1'] = true ∧
    mainRun ['a', '-', '1'] ⟨fun _ => 0, false, true, [], true⟩ =
      setup ⟨fun _ => 0, false, true, [], true⟩ :=
  allowed_name_with_alnum_accepted ['a', '-', '1']
    ⟨fun _ => 0, false, true, [], true⟩ (by decide)
    ⟨'a', by decide, by decide⟩

/-- C5: a name containing a character outside the allowed set (e.g. a
space or `/`) is rejected: the validation fails and the process exits 1
with an empty trace — no file created and no command run.  The name is
restricted to ASCII, where the model of Python's `isalnum` is exact. -/
theorem disallowed_name_exits_one_no_effects (s : List Char) (env : Env)
    (c : Char) (hc : c ∈ s) (hbad : allowedChar c = false)
    (hascii : ∀ d, d ∈ s → d.toNat < 128) :
    validName s = false ∧ mainRun s env = .exited ⟨[], 0⟩ 1 ∧
      (mainRun s env).trace = [] := by
  simp only [allowedChar, Bool.or_eq_false_iff, beq_eq_false_iff_ne, ne_eq] at hbad
  obtain ⟨⟨hbal, hbd⟩, hbu⟩ := hbad
  have hval : validName s = false := by
    have hmem : c ∈ (s.filter (fun c => c != '-')).filter (fun c => c != '_') := by
      rw [List.mem_filter]
      exact ⟨List.mem_filter.mpr ⟨hc, by simp [hbd]⟩, by simp [hbu]⟩
    rw [validName, pyIsalnum]
    rw [Bool.and_eq_false_iff]
    right
    rw [Bool.eq_false_iff]
    intro hall
    exact absurd (List.all_eq_true.mp hall c hmem) (by simp [hbal])
  refine ⟨hval, by simp [mainRun, hval], by simp [mainRun, hval, StepResult.trace]⟩

/-- Witness for C5 at the name `my app` (contains a space). -/
theorem disallowed_name_exits_one_no_effects_witness :
    validName ['m', 'y', ' ', 'a', 'p', 'p'] = false ∧
    mainRun ['m', 'y', ' ', 'a', 'p', 'p'] ⟨fun _ => 0, false, true, [], true⟩ =
      .exited ⟨[], 0⟩ 1 ∧
    (mainRun ['m', 'y', ' ', 'a', 'p', 'p']
      ⟨fun _ => 0, false, true, [], true⟩).trace = [] :=
  disallowed_name_exits_one_no_effects ['m', 'y', ' ', 'a', 'p', 'p']
    ⟨fun _ => 0, false, true, [], true⟩ ' ' (by decide) (by decide) (by decide)

/-- C6: base-path resolution follows the precedence explicit argument >
environment variable > default `<home>/Projects` ("set" meaning a truthy,
i.e. non-empty, value: Python treats `None` and `""` as falsy), the
resolution is total, and the project path is always the resolved base
path joined with the project name. -/
theorem basePath_precedence :
    (∀ (e : String) (envv : Option String) (home : String), e ≠ "" →
      resolveBasePath (some e) envv home = e) ∧
    (∀ (v home : String), v ≠ "" →
      resolveBasePath none (some v) home = v) ∧
    (∀ home : String, resolveBasePath none none home = home ++ "/Projects") ∧
    (∀ (ex envv : Option String) (home name : String),
      projectPath ex envv home name = resolveBasePath ex envv home ++ "/" ++ name) := by
  refine ⟨?_, ?_, ?_, fun _ _ _ _ => rfl⟩
  · intro e envv home he
    rw [resolveBasePath, if_pos (by simpa using he)]
    simp
  · intro v home hv
    rw [resolveBasePath, if_neg (by simp), if_pos (by simpa using hv)]
    simp
  · intro home
    rw [resolveBasePath, if_neg (by simp), if_neg (by simp)]

/-- Witness for C6: all three precedence levels at concrete paths. -/
theorem basePath_precedence_witness :
    resolveBasePath (some "/b") (some "/e") "/h" = "/b" ∧
    resolveBasePath none (some "/e") "/h" = "/e" ∧
    resolveBasePath none none "/h" = "/h" ++ "/Projects" ∧
    projectPath (some "/b") none "/h" "proj" =
      resolveBasePath (some "/b") none "/h" ++ "/" ++ "proj" :=
  ⟨basePath_precedence.1 "/b" (some "/e") "/h" (by decide),
   basePath_precedence.2.1 "/e" "/h" (by decide),
   basePath_precedence.2.2.1 "/h",
   basePath_precedence.2.2.2 (some "/b") none "/h" "proj"⟩

/-- JSON-like structured data, as parsed from `tsconfig.json` by
`json.load`: objects are ordered key–value lists (Python dicts preserve
insertion order; `json.load` keeps the last duplicate, so keys are
unique). -/
inductive JValue : Type where
  | str (s : String)
  | bool (b : Bool)
  | num (n : Int)
  | null
  | arr (xs : List JValue)
  | obj (fields : List (String × JValue))

/-- Dictionary lookup, `d[k]`. -/
def lookupKey (fields : List (String × JValue)) (k : String) : Option JValue :=
  match fields with
  | [] => none
  | (k', v) :: rest => if k' == k then some v else lookupKey rest k

/-- Dictionary assignment, `d[k] = v`: replaces the value of an existing
key in place (keeping its position), else appends the new key at the end. -/
def setKey (fields : List (String × JValue)) (k : String) (v : JValue) :
    List (String × JValue) :=
  match fields with
  | [] => [(k, v)]
  | (k', v') :: rest =>
      if k' == k then (k', v) :: rest else (k', v') :: setKey rest k v

/-- The tsconfig rewrite of `setup_frontend`:
`tsconfig["compilerOptions"]["target"] = "ES2017"` then
`tsconfig["compilerOptions"]["forceConsistentCasingInFileNames"] = True`,
then the whole structure is dumped back.  If `compilerOptions` is absent
or not an object, the Python subscripting raises, modelled as `none`. -/
def updateTsconfig (t : List (String × JValue)) :
    Option (List (String × JValue)) :=
  match lookupKey t "compilerOptions" with
  | some (JValue.obj co) =>
      some (setKey t "compilerOptions"
        (JValue.obj (setKey (setKey co "target" (JValue.str "ES2017"))
          "forceConsistentCasingInFileNames" (JValue.bool true))))
  | _ => none

theorem lookupKey_setKey_same (fields : List (String × JValue)) (k : String)
    (v : JValue) : lookupKey (setKey fields k v) k = some v := by
  induction fields with
  | nil => simp [setKey, lookupKey]
  | cons p rest ih =>
    obtain ⟨k', v'⟩ := p
    by_cases h : k' == k
    · simp [setKey, lookupKey, h]
    · simp only [setKey, lookupKey, h, if_false, Bool.false_eq_true]
      exact ih

theorem lookupKey_setKey_other (fields : List (String × JValue)) (k : String)
    (v : JValue) (k2 : String) (h : k2 ≠ k) :
    lookupKey (setKey fields k v) k2 = lookupKey fields k2 := by
  induction fields with
  | nil =>
    simp only [setKey, lookupKey]
    rw [if_neg (by simp only [beq_iff_eq]; exact fun e => h e.symm)]
  | cons p rest ih =>
    obtain ⟨k', v'⟩ := p
    by_cases hk : (k' == k) = true
    · have hk2 : (k' == k2) = false := by
        rw [beq_iff_eq] at hk
        subst hk
        simp only [beq_eq_false_iff_ne, ne_eq]
        exact fun e => h e.symm
      simp only [setKey, hk, if_true, lookupKey, hk2, Bool.false_eq_true, if_false]
    · simp only [setKey, hk, Bool.false_eq_true, if_false, lookupKey]
      by_cases hk2 : (k' == k2) = true
      · simp only [hk2, if_true]
      · simp only [hk2, Bool.false_eq_true, if_false]
        exact ih

/-- C9: when the parsed tsconfig has an object-valued `compilerOptions`
field, the rewrite succeeds and mutates exactly two fields: in the result,
`compilerOptions.target` is `"ES2017"` and
`compilerOptions.forceConsistentCasingInFileNames` is `true`, while every
other key of `compilerOptions` keeps its previous value and every
top-level key other than `compilerOptions` keeps its previous value. -/
theorem updateTsconfig_mutates_exactly_two_fields
    (t co : List (String × JValue))
    (h : lookupKey t "compilerOptions" = some (JValue.obj co)) :
    ∃ co',
      updateTsconfig t = some (setKey t "compilerOptions" (JValue.obj co')) ∧
      lookupKey co' "target" = some (JValue.str "ES2017") ∧
      lookupKey co' "forceConsistentCasingInFileNames" =
        some (JValue.bool true) ∧
      (∀ k, k ≠ "target" → k ≠ "forceConsistentCasingInFileNames" →
        lookupKey co' k = lookupKey co k) ∧
      (∀ k, k ≠ "compilerOptions" →
        lookupKey (setKey t "compilerOptions" (JValue.obj co')) k =
          lookupKey t k) := by
  refine ⟨setKey (setKey co "target" (JValue.str "ES2017"))
    "forceConsistentCasingInFileNames" (JValue.bool true),
    ?_, ?_, ?_, ?_, ?_⟩
  · rw [updateTsconfig, h]
  · rw [lookupKey_setKey_other _ _ _ _ (by decide), lookupKey_setKey_same]
  · rw [lookupKey_setKey_same]
  · intro k h1 h2
    rw [lookupKey_setKey_other _ _ _ _ h2, lookupKey_setKey_other _ _ _ _ h1]
  · intro k hk
    rw [lookupKey_setKey_other _ _ _ _ hk]

/-- Witness for C9 on a concrete generated tsconfig. -/
theorem updateTsconfig_mutates_exactly_two_fields_witness :
    ∃ co',
      updateTsconfig
        [("compilerOptions",
          JValue.obj [("target", JValue.str "ES5"), ("strict", JValue.bool true)]),
         ("include", JValue.arr [JValue.str "src"])] =
        some (setKey
          [("compilerOptions",
            JValue.obj [("target", JValue.str "ES5"), ("strict", JValue.bool true)]),
           ("include", JValue.arr [JValue.str "src"])]
          "compilerOptions" (JValue.obj co')) ∧
      lookupKey co' "target" = some (JValue.str "ES2017") ∧
      lookupKey co' "forceConsistentCasingInFileNames" =
        some (JValue.bool true) ∧
      (∀ k, k ≠ "target" → k ≠ "forceConsistentCasingInFileNames" →
        lookupKey co' k =
          lookupKey [("target", JValue.str "ES5"), ("strict", JValue.bool true)] k) ∧
      (∀ k, k ≠ "compilerOptions" →
        lookupKey (setKey
          [("compilerOptions",
            JValue.obj [("target", JValue.str "ES5"), ("strict", JValue.bool true)]),
           ("include", JValue.arr [JValue.str "src"])]
          "compilerOptions" (JValue.obj co')) k =
          lookupKey
            [("compilerOptions",
              JValue.obj [("target", JValue.str "ES5"), ("strict", JValue.bool true)]),
             ("include", JValue.arr [JValue.str "src"])] k) :=
  updateTsconfig_mutates_exactly_two_fields
    [("compilerOptions",
      JValue.obj [("target", JValue.str "ES5"), ("strict", JValue.bool true)]),
     ("include", JValue.arr [JValue.str "src"])]
    [("target", JValue.str "ES5"), ("strict", JValue.bool true)] rfl

end Monorepo
